import Mathlib

/-!
Verification of the dynamic-interpretation coordination core of
`vscode-elixir-ls` (file `src/dynamicInterpretationManager.ts`), against its
natural-language specification.  The TypeScript manager and its coordination
strategies are embedded as pure Lean functions over an explicit manager state;
the external collaborators (the analysis service reached over LSP and the
debug-adapter Execution Adapter reached over DAP) are parameters of the
embedding.  Components that the repository only describes in its design
documents (the Dependency Graph Store's transitive closure and the Scope
Planner's pattern filtering) are modelled from the spec and marked as such.
-/

namespace DIM

/-- Scope policy of a dependency-analysis request
(`'minimal' | 'conservative' | 'complete'` in the TypeScript union). -/
inductive Scope where
  | minimal
  | conservative
  | complete
deriving DecidableEq

/-- Embedding of the `DependencyAnalysisRequest` interface
(fields used by the coordination logic). -/
structure DependencyAnalysisRequest where
  module : String
  scope : Scope
  includeTransitive : Bool
  interpretationPatterns : List String
deriving DecidableEq

/-- Embedding of the `DependencyAnalysisResponse` interface
(fields consumed by the coordination logic). -/
structure DependencyAnalysisResponse where
  targetModule : String
  interpretationScope : List String
deriving DecidableEq

/-- Result body of the debug adapter's `coordinatedInterpret` request:
the per-unit success/failure partition reported by the Execution Adapter. -/
structure InterpretResponse where
  interpreted : List String
  failed : List String
deriving DecidableEq

/-- A VS Code breakpoint: `SourceBreakpoint` carries a file path
(`location.uri.path` / `fsPath`); anything else is rejected by the
`instanceof vscode.SourceBreakpoint` guards. -/
inductive Breakpoint where
  | source (path : String)
  | other
deriving DecidableEq

/-- Mutable fields of `DynamicInterpretationManager` that the coordination
logic reads and writes: the JS `Set` of interpreted module names (modelled as
an insertion-ordered duplicate-free list), the configured interpretation
patterns, the current strategy name, and the coordination toggle. -/
structure ManagerState where
  interpretedModules : List String
  interpretationPatterns : List String
  currentStrategy : String
  coordinationEnabled : Bool
deriving DecidableEq

/-- Boolean membership test on a list of module names
(the embedding of JS `Set.has` / `Array.includes`). -/
def hasModule : List String → String → Bool
  | [], _ => false
  | x :: xs, m => if x = m then true else hasModule xs m

/-- JS `Set.add`: append the element if it is not already present,
preserving insertion order. -/
def setAdd (s : List String) (m : String) : List String :=
  if hasModule s m then s else s ++ [m]

theorem hasModule_iff (l : List String) (m : String) :
    hasModule l m = true ↔ m ∈ l := by
  induction l with
  | nil => simp [hasModule]
  | cons x xs ih =>
    by_cases hx : x = m
    · subst hx; simp [hasModule]
    · simp [hasModule, hx, ih, Ne.symm hx]

theorem mem_setAdd (s : List String) (a m : String) :
    m ∈ setAdd s a ↔ m ∈ s ∨ m = a := by
  unfold setAdd
  by_cases h : hasModule s a = true
  · rw [if_pos h]
    rw [hasModule_iff] at h
    constructor
    · exact fun hm => Or.inl hm
    · rintro (hm | rfl)
      · exact hm
      · exact h
  · rw [if_neg h]
    simp [List.mem_append]

theorem mem_foldl_setAdd (l : List String) (init : List String) (m : String) :
    m ∈ l.foldl setAdd init ↔ m ∈ init ∨ m ∈ l := by
  induction l generalizing init with
  | nil => simp
  | cons a t ih =>
    simp only [List.foldl_cons, ih, mem_setAdd, List.mem_cons]
    tauto

/-- Shape of the object returned by
`DynamicInterpretationManager.getInterpretationStatus`. -/
structure InterpretationStatus where
  interpretedCount : Nat
  interpretedModules : List String
  coordinationEnabled : Bool
  currentStrategy : String
deriving DecidableEq

/-- Embedding of `getInterpretationStatus`: a read-only snapshot of the
manager state (the JS `Set`'s `size` and `Array.from` contents, the
coordination flag and the current strategy's name). -/
def getInterpretationStatus (s : ManagerState) : InterpretationStatus :=
  { interpretedCount := s.interpretedModules.length
    interpretedModules := s.interpretedModules
    coordinationEnabled := s.coordinationEnabled
    currentStrategy := s.currentStrategy }

/-- State update performed by `executeInterpretation` after the adapter
responds: every module in `response.interpreted` is added to the manager's
`interpretedModules` set; failed modules are not touched. -/
def executeInterpretationUpdate (s : ManagerState) (resp : InterpretResponse) :
    ManagerState :=
  { s with interpretedModules := resp.interpreted.foldl setAdd s.interpretedModules }

theorem mem_executeInterpretationUpdate (s : ManagerState)
    (resp : InterpretResponse) (m : String) :
    m ∈ (executeInterpretationUpdate s resp).interpretedModules ↔
      m ∈ s.interpretedModules ∨ m ∈ resp.interpreted := by
  simp [executeInterpretationUpdate, mem_foldl_setAdd]

/-- Embedding of `DynamicInterpretationManager.mergeDependencies`: union of
the analyses' `interpretationScope` sets (JS `Set` accumulation), then
filtering out the modules already interpreted. -/
def mergeDependencies (interpreted : List String)
    (analyses : List DependencyAnalysisResponse) : List String :=
  let allModules :=
    analyses.foldl (fun acc a => a.interpretationScope.foldl setAdd acc) []
  allModules.filter (fun m => ! hasModule interpreted m)

theorem mem_mergeDependencies (interpreted : List String)
    (analyses : List DependencyAnalysisResponse) (m : String) :
    m ∈ mergeDependencies interpreted analyses ↔
      (∃ a ∈ analyses, m ∈ a.interpretationScope) ∧ m ∉ interpreted := by
  unfold mergeDependencies
  rw [List.mem_filter]
  have hUnion : ∀ (l : List DependencyAnalysisResponse) (init : List String),
      m ∈ l.foldl (fun acc a => a.interpretationScope.foldl setAdd acc) init ↔
        m ∈ init ∨ ∃ a ∈ l, m ∈ a.interpretationScope := by
    intro l
    induction l with
    | nil => simp
    | cons a t ih =>
      intro init
      simp only [List.foldl_cons, ih, mem_foldl_setAdd, List.mem_cons]
      constructor
      · rintro ((h | h) | ⟨b, hb, hmb⟩)
        · exact Or.inl h
        · exact Or.inr ⟨a, Or.inl rfl, h⟩
        · exact Or.inr ⟨b, Or.inr hb, hmb⟩
      · rintro (h | ⟨b, (rfl | hb), hmb⟩)
        · exact Or.inl (Or.inl h)
        · exact Or.inl (Or.inr hmb)
        · exact Or.inr ⟨b, hb, hmb⟩
  rw [hUnion]
  simp only [List.not_mem_nil, false_or, Bool.not_eq_true', ← Bool.not_eq_true,
    hasModule_iff]

/-- JS `string.split(sep)` on the exploded character list: splits at every
separator occurrence, keeping empty groups (so `"".split(sep)` is `[""]`,
matching JavaScript). -/
def splitChar (sep : Char) : List Char → List (List Char)
  | [] => [[]]
  | c :: cs =>
    match splitChar sep cs with
    | [] => [[]]
    | g :: gs => if c = sep then [] :: g :: gs else (c :: g) :: gs

/-- JS `fileName.endsWith(".ex")` on the exploded character list. -/
def endsWithDotEx (cs : List Char) : Bool :=
  match cs.reverse with
  | 'x' :: 'e' :: '.' :: _ => true
  | _ => false

/-- JS `part.charAt(0).toUpperCase() + part.slice(1)`: capitalize the first
character of a segment, leave the rest untouched. -/
def capitalizeSegment : List Char → List Char
  | [] => []
  | c :: cs => c.toUpper :: cs

/-- JS `baseName.replace(".ex", "")`: remove the FIRST occurrence of the
substring `".ex"` (JS `String.replace` with a string argument replaces only
the first match). -/
def stripDotEx : List Char → List Char
  | '.' :: 'e' :: 'x' :: rest => rest
  | c :: cs => c :: stripDotEx cs
  | [] => []

/-- Module-name derivation from a bare file name, as in
`extractModuleFromUri` / `extractModuleFromFile`: require the `".ex"`
extension, drop the first `".ex"` occurrence, split on `'_'` and capitalize
each segment (snake_case → PascalCase). Returns `none` when the file name is
empty or lacks the extension (the TypeScript returns `undefined`). -/
def moduleFromFileName (fileName : String) : Option String :=
  if fileName = "" then none
  else if endsWithDotEx fileName.data then
    some (String.mk
      (((splitChar '_' (stripDotEx fileName.data)).map capitalizeSegment).flatten))
  else none

/-- JS `path.split('/').pop()`: the last `/`-separated segment of a path. -/
def fileNameOf (path : String) : String :=
  String.mk ((splitChar '/' path.data).getLastD [])

/-- Embedding of `DynamicInterpretationManager.extractModuleFromUri` and the
identical `DemandDrivenCoordinator.extractModuleFromFile`: module name from
the basename of the breakpoint's file path; the directory part is discarded
by `fileNameOf`. -/
def extractModuleFromFile (filePath : String) : Option String :=
  moduleFromFileName (fileNameOf filePath)

/-- The target module a breakpoint yields for coordination: only
`SourceBreakpoint`s are considered (`instanceof` guard), and a falsy derived
name (`undefined` or the empty string, both falsy in `if (!module)`) makes the
breakpoint silently skipped. -/
def targetOf (bp : Breakpoint) : Option String :=
  match bp with
  | .other => none
  | .source path =>
    match extractModuleFromFile path with
    | none => none
    | some m => if m = "" then none else some m

/-- Optional fields a caller passes as the `context` argument of
`requestDependencyAnalysis` (`Partial<DependencyAnalysisRequest>`). -/
structure AnalysisContext where
  scope : Option Scope
  includeTransitive : Option Bool
  interpretationPatterns : Option (List String)

/-- Request object built inside `requestDependencyAnalysis`:
`scope: context.scope ?? 'minimal'`, `includeTransitive: context.includeTransitive
?? false`, `interpretationPatterns: context.interpretationPatterns ??
this.interpretationPatterns`. -/
def buildAnalysisRequest (patterns : List String) (module : String)
    (ctx : AnalysisContext) : DependencyAnalysisRequest :=
  { module := module
    scope := ctx.scope.getD Scope.minimal
    includeTransitive := ctx.includeTransitive.getD false
    interpretationPatterns := ctx.interpretationPatterns.getD patterns }

/-- Outcome of the `planInterpretationScope` method: deduplicated target
modules plus one conservative analysis request per resolved breakpoint. -/
structure InterpretationPlan where
  targetModules : List String
  analysisRequests : List DependencyAnalysisRequest
deriving DecidableEq

/-- Loop body of `planInterpretationScope`: for a source breakpoint whose
module name resolves to a truthy string, add the module to the target set and
push a request with scope `'conservative'` and the manager's interpretation
patterns. -/
def planStep (s : ManagerState) (plan : InterpretationPlan) (bp : Breakpoint) :
    InterpretationPlan :=
  match targetOf bp with
  | none => plan
  | some m =>
    { targetModules := setAdd plan.targetModules m
      analysisRequests := plan.analysisRequests ++
        [{ module := m
           scope := Scope.conservative
           includeTransitive := false
           interpretationPatterns := s.interpretationPatterns }] }

/-- Embedding of `DynamicInterpretationManager.planInterpretationScope`: fold
`planStep` over the breakpoint list, starting from the empty plan. -/
def planInterpretationScope (s : ManagerState) (bps : List Breakpoint) :
    InterpretationPlan :=
  bps.foldl (planStep s) ⟨[], []⟩

/-- Observable outcome of one coordination run: the final manager state, the
module lists sent to the Execution Adapter (one entry per
`coordinatedInterpret` request issued), and the analysis requests sent to the
language server. -/
structure StepResult where
  state : ManagerState
  adapterCalls : List (List String)
  analysisCalls : List DependencyAnalysisRequest
deriving DecidableEq

/-- The request `DemandDrivenCoordinator.onBreakpointSet` passes to
`requestDependencyAnalysis`: context `{ scope: 'minimal' }`. -/
def demandRequest (s : ManagerState) (m : String) : DependencyAnalysisRequest :=
  buildAnalysisRequest s.interpretationPatterns m ⟨some Scope.minimal, none, none⟩

/-- Embedding of `DemandDrivenCoordinator.onBreakpointSet`: skip non-source
breakpoints and unresolvable modules; skip modules already in the status
snapshot's `interpretedModules`; otherwise request a `'minimal'`-scope
analysis and, when the returned scope is non-empty, issue one immediate
interpretation request to the Execution Adapter and record its successes. -/
def demandOnBreakpointSet
    (analyze : DependencyAnalysisRequest → DependencyAnalysisResponse)
    (adapter : List String → InterpretResponse)
    (s : ManagerState) (bp : Breakpoint) : StepResult :=
  match targetOf bp with
  | none => ⟨s, [], []⟩
  | some m =>
    if hasModule (getInterpretationStatus s).interpretedModules m then
      ⟨s, [], []⟩
    else if 0 < (analyze (demandRequest s m)).interpretationScope.length then
      ⟨executeInterpretationUpdate s
          (adapter (analyze (demandRequest s m)).interpretationScope),
        [(analyze (demandRequest s m)).interpretationScope],
        [demandRequest s m]⟩
    else
      ⟨s, [], [demandRequest s m]⟩

/-- Embedding of `DemandDrivenCoordinator.onBreakpointsChanged`: process each
breakpoint individually through `onBreakpointSet`, threading the manager
state and accumulating the outgoing calls. -/
def demandChanged
    (analyze : DependencyAnalysisRequest → DependencyAnalysisResponse)
    (adapter : List String → InterpretResponse)
    (s : ManagerState) : List Breakpoint → StepResult
  | [] => ⟨s, [], []⟩
  | bp :: rest =>
    ⟨(demandChanged analyze adapter
        (demandOnBreakpointSet analyze adapter s bp).state rest).state,
      (demandOnBreakpointSet analyze adapter s bp).adapterCalls ++
        (demandChanged analyze adapter
          (demandOnBreakpointSet analyze adapter s bp).state rest).adapterCalls,
      (demandOnBreakpointSet analyze adapter s bp).analysisCalls ++
        (demandChanged analyze adapter
          (demandOnBreakpointSet analyze adapter s bp).state rest).analysisCalls⟩

/-- The delta computed inside `PredictiveCoordinator.onBreakpointsChanged`:
all planned analyses merged against the currently-interpreted set via
`mergeDependencies`. -/
def predictiveDelta
    (analyze : DependencyAnalysisRequest → DependencyAnalysisResponse)
    (s : ManagerState) (bps : List Breakpoint) : List String :=
  mergeDependencies s.interpretedModules
    ((planInterpretationScope s bps).analysisRequests.map analyze)

/-- Embedding of `PredictiveCoordinator.onBreakpointsChanged`: plan the scope,
run all analyses, merge against the currently-interpreted set, and issue a
single immediate interpretation request only when the delta is non-empty. -/
def predictiveChanged
    (analyze : DependencyAnalysisRequest → DependencyAnalysisResponse)
    (adapter : List String → InterpretResponse)
    (s : ManagerState) (bps : List Breakpoint) : StepResult :=
  if 0 < (predictiveDelta analyze s bps).length then
    ⟨executeInterpretationUpdate s (adapter (predictiveDelta analyze s bps)),
      [predictiveDelta analyze s bps],
      (planInterpretationScope s bps).analysisRequests⟩
  else
    ⟨s, [], (planInterpretationScope s bps).analysisRequests⟩

/-- Embedding of `DynamicInterpretationManager.onBreakpointsChanged`: return
immediately when coordination is disabled, otherwise delegate to the current
strategy (`LearningCoordinator` falls back to the demand-driven behavior). -/
def onBreakpointsChanged
    (analyze : DependencyAnalysisRequest → DependencyAnalysisResponse)
    (adapter : List String → InterpretResponse)
    (s : ManagerState) (bps : List Breakpoint) : StepResult :=
  if s.coordinationEnabled = false then ⟨s, [], []⟩
  else if s.currentStrategy = "predictive" then
    predictiveChanged analyze adapter s bps
  else
    demandChanged analyze adapter s bps

/-- Embedding of `setCoordinationStrategy`: the switch over the strategy name;
unknown names fall back to demand-driven.  Only `currentStrategy` changes. -/
def setCoordinationStrategy (s : ManagerState) (name : String) : ManagerState :=
  if name = "demand-driven" then { s with currentStrategy := "demand-driven" }
  else if name = "predictive" then { s with currentStrategy := "predictive" }
  else if name = "learning" then { s with currentStrategy := "learning" }
  else { s with currentStrategy := "demand-driven" }

/-- Embedding of the debug adapter's `interpret_immediately` (design document
`02 - ide-coordinator-spec.md`): reject modules already interpreted, attempt
each remaining module independently through the per-module oracle `ok`, and
partition the attempts into successes and failures. -/
def interpretImmediately (alreadyInterpreted : List String)
    (ok : String → Bool) (modules : List String) : InterpretResponse :=
  let attempted := modules.filter (fun m => ! hasModule alreadyInterpreted m)
  ⟨attempted.filter ok, attempted.filter (fun m => ! ok m)⟩

/-- Modelled from the spec: the Dependency Graph Store's edge set.  The
repository only declares its operations (`ModuleDependencyAnalyzer` lives in
the external language-server code base); the graph is "a directed graph of
depends-on edges between code units" with set semantics. -/
structure DependencyGraph where
  edges : List (String × String)

/-- Modelled from the spec: `directDependencies(unit)` — the units that `unit`
directly calls/uses; unknown units yield the empty set.  Duplicate edges are
coalesced (set semantics), iteration order is first-discovery order. -/
def directDependencies (g : DependencyGraph) (u : String) : List String :=
  ((g.edges.filter (fun e => e.1 = u)).map Prod.snd).foldl setAdd []

/-- One breadth-first round: the direct dependencies of the whole frontier,
minus everything already visited; returns the new frontier and the grown
visited list. -/
def bfsRound (g : DependencyGraph) (frontier visited : List String) :
    List String × List String :=
  let nexts := frontier.foldl (fun acc u => (directDependencies g u).foldl setAdd acc) []
  let fresh := nexts.filter (fun m => ! hasModule visited m)
  (fresh, visited ++ fresh)

/-- Fuelled breadth-first loop: stop when the frontier is empty, when the
depth budget reaches zero, or when the fuel (bounded by the graph size) runs
out; otherwise expand one round. -/
def transitiveAux (g : DependencyGraph) :
    Nat → Int → List String → List String → List String
  | 0, _, _, visited => visited
  | Nat.succ fuel, depthLeft, frontier, visited =>
    if frontier.isEmpty then visited
    else if depthLeft = 0 then visited
    else
      let p := bfsRound g frontier visited
      transitiveAux g fuel (depthLeft - 1) p.1 p.2

/-- Modelled from the spec: `transitiveDependencies(unit, maxDepth)` — the
breadth-first closure bounded by `maxDepth` (`maxDepth = 0` means direct
dependencies only, `maxDepth < 0` means unbounded), with cycle-safe
visited-tracking; the target itself is not part of the returned set.  The fuel
`g.edges.length + 2` dominates the number of productive rounds, since every
round either discovers a fresh edge target or empties the frontier. -/
def transitiveDependencies (g : DependencyGraph) (unit : String)
    (maxDepth : Int) : List String :=
  let budget : Int := if maxDepth < 0 then -1 else maxDepth + 1
  (transitiveAux g (g.edges.length + 2) budget [unit] [unit]).filter
    (fun m => m ≠ unit)

/-- Fuelled core of the glob matcher: every recursive call shrinks the
combined length of pattern and subject, so fuel `p.length + s.length + 1`
is always sufficient. -/
def globMatchFuel : Nat → List Char → List Char → Bool
  | 0, _, _ => false
  | Nat.succ f, p, s =>
    match p, s with
    | [], [] => true
    | [], _ :: _ => false
    | '*' :: ps, [] => globMatchFuel f ps []
    | '*' :: ps, c :: cs =>
      globMatchFuel f ps (c :: cs) || globMatchFuel f ('*' :: ps) cs
    | q :: ps, c :: cs => (q = c) && globMatchFuel f ps cs
    | _ :: _, [] => false

/-- Modelled from the spec: glob-like pattern matching for the allow/deny
module filters (`"MyApp.*"` style); `'*'` matches any run of characters, every
other character matches itself. -/
def globMatch (p s : List Char) : Bool :=
  globMatchFuel (p.length + s.length + 1) p s

/-- Glob matching on strings. -/
def globMatchStr (pat s : String) : Bool :=
  globMatch pat.data s.data

/-- Modelled from the spec: the Scope Planner's allow-list filtering
(`filter_by_patterns` is only declared, not defined, in the design documents):
with a non-empty allow-list, keep only the units matching at least one
pattern, but always keep the target itself regardless of the filters. -/
def applyAllowList (target : String) (allowList : List String)
    (units : List String) : List String :=
  if allowList.isEmpty then units
  else units.filter (fun u => u = target || allowList.any (fun p => globMatchStr p u))

/-- Modelled from the spec: the `minimal` policy —
`directDependencies(target) ∪ {target}`. -/
def minimalScope (g : DependencyGraph) (target : String) : List String :=
  setAdd (directDependencies g target) target

/-- The coordination operations of one debug session, as surfaced by the
manager: breakpoint handling, a dependency-analysis request (read-only for
the manager state), a direct interpretation request, a strategy change, and a
status query. -/
inductive CoordOp where
  | breakpointsChanged (bps : List Breakpoint)
  | analysisRequest (module : String)
  | interpret (modules : List String)
  | setStrategy (name : String)
  | statusQuery

/-- Effect of each coordination operation on the manager state, with the
external analysis service and Execution Adapter as parameters.
`requestDependencyAnalysis` and `getInterpretationStatus` do not write the
state; `executeInterpretation` folds the adapter's successes into the
interpreted set; `setCoordinationStrategy` only rewrites the strategy name. -/
def applyOp (analyze : DependencyAnalysisRequest → DependencyAnalysisResponse)
    (adapter : List String → InterpretResponse)
    (s : ManagerState) : CoordOp → ManagerState
  | .breakpointsChanged bps => (onBreakpointsChanged analyze adapter s bps).state
  | .analysisRequest _ => s
  | .interpret modules => executeInterpretationUpdate s (adapter modules)
  | .setStrategy name => setCoordinationStrategy s name
  | .statusQuery => s

theorem mem_interpretImmediately_interpreted (already : List String)
    (ok : String → Bool) (modules : List String) (m : String) :
    m ∈ (interpretImmediately already ok modules).interpreted ↔
      m ∈ modules ∧ m ∉ already ∧ ok m = true := by
  simp only [interpretImmediately, List.mem_filter, Bool.not_eq_true',
    ← Bool.not_eq_true, hasModule_iff]
  tauto

theorem mem_interpretImmediately_failed (already : List String)
    (ok : String → Bool) (modules : List String) (m : String) :
    m ∈ (interpretImmediately already ok modules).failed ↔
      m ∈ modules ∧ m ∉ already ∧ ok m = false := by
  simp only [interpretImmediately, List.mem_filter, Bool.not_eq_true',
    ← Bool.not_eq_true, hasModule_iff]
  tauto

/-- C3: a per-unit Execution Adapter failure does not abort the batch.  In
`executeInterpretation`, exactly the units the adapter reports as interpreted
are added to the tracked set and everything previously tracked stays; in the
adapter's `interpret_immediately`, a unit is interpreted (resp. failed)
precisely according to its own outcome, and whether some unit `m` ends up
interpreted depends only on `m`'s own outcome — the oracle's verdict on other
units is irrelevant, so each unit's mutation is individually atomic. -/
theorem claim_C3_batch_isolation (s : ManagerState) (resp : InterpretResponse)
    (already : List String) (ok1 ok2 : String → Bool)
    (modules : List String) (m : String) (hok : ok1 m = ok2 m) :
    (m ∈ (executeInterpretationUpdate s resp).interpretedModules ↔
      m ∈ s.interpretedModules ∨ m ∈ resp.interpreted) ∧
    (m ∈ (interpretImmediately already ok1 modules).interpreted ↔
      m ∈ modules ∧ m ∉ already ∧ ok1 m = true) ∧
    (m ∈ (interpretImmediately already ok1 modules).failed ↔
      m ∈ modules ∧ m ∉ already ∧ ok1 m = false) ∧
    (m ∈ (interpretImmediately already ok1 modules).interpreted ↔
      m ∈ (interpretImmediately already ok2 modules).interpreted) := by
  refine ⟨mem_executeInterpretationUpdate s resp m,
    mem_interpretImmediately_interpreted already ok1 modules m,
    mem_interpretImmediately_failed already ok1 modules m, ?_⟩
  rw [mem_interpretImmediately_interpreted, mem_interpretImmediately_interpreted,
    hok]

/-- C3 witness: concrete batch where unit C fails while unit B succeeds. -/
theorem claim_C3_witness :
    "B" ∈ (executeInterpretationUpdate
        ⟨["A"], [], "demand-driven", true⟩ ⟨["B"], ["C"]⟩).interpretedModules ↔
      "B" ∈ ["A"] ∨ "B" ∈ ["B"] :=
  (claim_C3_batch_isolation ⟨["A"], [], "demand-driven", true⟩ ⟨["B"], ["C"]⟩
    ["A"] (fun m => m != "C") (fun m => m != "C") ["A", "B", "C"] "B" rfl).1

/-- C4: `mergeDependencies` returns exactly the set union of the analyses'
interpretation scopes minus the already-interpreted modules; as a set it is
invariant under permutation of the input list and under duplicating an
input analysis. -/
theorem claim_C4_merge_union (interpreted : List String)
    (analyses analyses2 : List DependencyAnalysisResponse)
    (a : DependencyAnalysisResponse) (m : String)
    (hperm : analyses.Perm analyses2) :
    (m ∈ mergeDependencies interpreted analyses ↔
      (∃ b ∈ analyses, m ∈ b.interpretationScope) ∧ m ∉ interpreted) ∧
    (m ∈ mergeDependencies interpreted analyses2 ↔
      m ∈ mergeDependencies interpreted analyses) ∧
    (m ∈ mergeDependencies interpreted (a :: a :: analyses) ↔
      m ∈ mergeDependencies interpreted (a :: analyses)) := by
  refine ⟨mem_mergeDependencies interpreted analyses m, ?_, ?_⟩
  · rw [mem_mergeDependencies, mem_mergeDependencies]
    constructor
    · rintro ⟨⟨b, hb, hmb⟩, hni⟩
      exact ⟨⟨b, hperm.symm.subset hb, hmb⟩, hni⟩
    · rintro ⟨⟨b, hb, hmb⟩, hni⟩
      exact ⟨⟨b, hperm.subset hb, hmb⟩, hni⟩
  · rw [mem_mergeDependencies, mem_mergeDependencies]
    simp only [List.mem_cons, or_self_left]

/-- Concrete scope result for the `User` unit, used by witnesses. -/
def respUser : DependencyAnalysisResponse := ⟨"User", ["User", "Order"]⟩

/-- Concrete scope result for the `Payment` unit, used by witnesses. -/
def respPayment : DependencyAnalysisResponse := ⟨"Payment", ["Payment"]⟩

/-- C4 witness: permuting two concrete scope results does not change the
merged set. -/
theorem claim_C4_witness :
    "Order" ∈ mergeDependencies ["Payment"] [respPayment, respUser] ↔
      "Order" ∈ mergeDependencies ["Payment"] [respUser, respPayment] :=
  (claim_C4_merge_union ["Payment"] [respUser, respPayment]
    [respPayment, respUser] respUser "Order"
    (List.Perm.swap respPayment respUser [])).2.1

/-- C5 counterexample: the status snapshot carries no session-scoped
monotonically increasing sequence number.  The snapshot returned by
`getInterpretationStatus` consists only of the interpreted count and list, the
coordination flag and the strategy name, so no function of the snapshot can
strictly increase across every coordination request: an `executeInterpretation`
whose response interprets nothing leaves the snapshot literally unchanged. -/
theorem claim_C5_counterexample :
    ¬ ∃ seq : InterpretationStatus → Nat,
      ∀ (s : ManagerState) (resp : InterpretResponse),
        seq (getInterpretationStatus s) <
          seq (getInterpretationStatus (executeInterpretationUpdate s resp)) := by
  rintro ⟨seq, h⟩
  exact absurd (h ⟨[], [], "demand-driven", false⟩ ⟨[], []⟩) (lt_irrefl _)

/-- C5 (amended): `getInterpretationStatus` returns a read-only snapshot whose
`interpretedCount` equals the number of names in the returned
`interpretedModules` list, together with the coordination flag and the current
strategy name; the code maintains no sequence number. -/
theorem claim_C5_status_snapshot (s : ManagerState) :
    (getInterpretationStatus s).interpretedCount =
      (getInterpretationStatus s).interpretedModules.length ∧
    (getInterpretationStatus s).interpretedModules = s.interpretedModules ∧
    (getInterpretationStatus s).coordinationEnabled = s.coordinationEnabled ∧
    (getInterpretationStatus s).currentStrategy = s.currentStrategy :=
  ⟨rfl, rfl, rfl, rfl⟩

/-- C6: on the cyclic graph `A→B`, `B→C`, `C→A`, the unbounded
breadth-first closure from `A` terminates (the function is total by
construction, its fuel bounded by the graph size) and returns exactly
`{B, C}`, not containing `A`. -/
theorem claim_C6_cycle_safety :
    transitiveDependencies ⟨[("A", "B"), ("B", "C"), ("C", "A")]⟩ "A" (-1) =
      ["B", "C"] := by
  decide

/-- C8: when coordination mode is disabled, a breakpoint-change event performs
no dependency-analysis request, no Execution Adapter call, and leaves the
whole manager state unchanged. -/
theorem claim_C8_disabled_noop
    (analyze : DependencyAnalysisRequest → DependencyAnalysisResponse)
    (adapter : List String → InterpretResponse)
    (s : ManagerState) (bps : List Breakpoint)
    (h : s.coordinationEnabled = false) :
    onBreakpointsChanged analyze adapter s bps = ⟨s, [], []⟩ := by
  simp [onBreakpointsChanged, h]

/-- C8 witness: a concrete disabled manager ignores a source breakpoint. -/
theorem claim_C8_witness :
    onBreakpointsChanged (fun req => ⟨req.module, [req.module]⟩)
      (fun l => ⟨l, []⟩)
      ⟨["User"], [], "demand-driven", false⟩
      [Breakpoint.source "/lib/order.ex"] =
      ⟨⟨["User"], [], "demand-driven", false⟩, [], []⟩ :=
  claim_C8_disabled_noop _ _ _ _ rfl

theorem demandStep_mono
    (analyze : DependencyAnalysisRequest → DependencyAnalysisResponse)
    (adapter : List String → InterpretResponse)
    (s : ManagerState) (bp : Breakpoint) (m : String)
    (hm : m ∈ s.interpretedModules) :
    m ∈ (demandOnBreakpointSet analyze adapter s bp).state.interpretedModules := by
  unfold demandOnBreakpointSet
  cases targetOf bp with
  | none => exact hm
  | some t =>
    dsimp only
    split_ifs
    · exact hm
    · exact (mem_executeInterpretationUpdate _ _ _).mpr (Or.inl hm)
    · exact hm

theorem demandChanged_mono
    (analyze : DependencyAnalysisRequest → DependencyAnalysisResponse)
    (adapter : List String → InterpretResponse)
    (bps : List Breakpoint) (s : ManagerState) (m : String)
    (hm : m ∈ s.interpretedModules) :
    m ∈ (demandChanged analyze adapter s bps).state.interpretedModules := by
  induction bps generalizing s with
  | nil => exact hm
  | cons bp rest ih =>
    exact ih _ (demandStep_mono analyze adapter s bp m hm)

theorem predictiveChanged_mono
    (analyze : DependencyAnalysisRequest → DependencyAnalysisResponse)
    (adapter : List String → InterpretResponse)
    (s : ManagerState) (bps : List Breakpoint) (m : String)
    (hm : m ∈ s.interpretedModules) :
    m ∈ (predictiveChanged analyze adapter s bps).state.interpretedModules := by
  unfold predictiveChanged
  split_ifs
  · exact (mem_executeInterpretationUpdate _ _ _).mpr (Or.inl hm)
  · exact hm

theorem onBreakpointsChanged_mono
    (analyze : DependencyAnalysisRequest → DependencyAnalysisResponse)
    (adapter : List String → InterpretResponse)
    (s : ManagerState) (bps : List Breakpoint) (m : String)
    (hm : m ∈ s.interpretedModules) :
    m ∈ (onBreakpointsChanged analyze adapter s bps).state.interpretedModules := by
  unfold onBreakpointsChanged
  split_ifs
  · exact hm
  · exact predictiveChanged_mono analyze adapter s bps m hm
  · exact demandChanged_mono analyze adapter bps s m hm

theorem setCoordinationStrategy_interpreted (s : ManagerState) (name : String) :
    (setCoordinationStrategy s name).interpretedModules = s.interpretedModules := by
  unfold setCoordinationStrategy
  split_ifs <;> rfl

/-- C9: the interpreted set grows monotonically — every coordination
operation (breakpoint handling, dependency analysis, interpretation
execution, strategy change, status query) preserves every module name already
present in the interpreted set; no operation of the session removes one. -/
theorem claim_C9_monotonic
    (analyze : DependencyAnalysisRequest → DependencyAnalysisResponse)
    (adapter : List String → InterpretResponse)
    (s : ManagerState) (op : CoordOp) (m : String)
    (hm : m ∈ s.interpretedModules) :
    m ∈ (applyOp analyze adapter s op).interpretedModules := by
  cases op with
  | breakpointsChanged bps => exact onBreakpointsChanged_mono analyze adapter s bps m hm
  | analysisRequest _ => exact hm
  | interpret modules => exact (mem_executeInterpretationUpdate _ _ _).mpr (Or.inl hm)
  | setStrategy name =>
    show m ∈ (setCoordinationStrategy s name).interpretedModules
    rw [setCoordinationStrategy_interpreted]
    exact hm
  | statusQuery => exact hm

/-- C9 witness: a concrete breakpoint-handling run keeps `User`
interpreted. -/
theorem claim_C9_witness :
    "User" ∈ (applyOp (fun req => ⟨req.module, [req.module]⟩)
      (fun l => ⟨l, []⟩)
      ⟨["User"], [], "demand-driven", true⟩
      (CoordOp.breakpointsChanged [Breakpoint.source "/lib/order.ex"])).interpretedModules :=
  claim_C9_monotonic _ _ _ _ _ (by decide)

theorem planStep_requests (s : ManagerState) (plan : InterpretationPlan)
    (bp : Breakpoint) (r : DependencyAnalysisRequest)
    (h : r ∈ (planStep s plan bp).analysisRequests) :
    r ∈ plan.analysisRequests ∨ r.scope = Scope.conservative := by
  unfold planStep at h
  cases ht : targetOf bp with
  | none =>
    rw [ht] at h
    exact Or.inl h
  | some m =>
    rw [ht] at h
    simp only [List.mem_append, List.mem_singleton] at h
    rcases h with h | h
    · exact Or.inl h
    · subst h
      exact Or.inr rfl

theorem plan_requests_conservative (s : ManagerState) (bps : List Breakpoint)
    (r : DependencyAnalysisRequest)
    (h : r ∈ (planInterpretationScope s bps).analysisRequests) :
    r.scope = Scope.conservative := by
  have aux : ∀ (l : List Breakpoint) (acc : InterpretationPlan),
      (∀ q ∈ acc.analysisRequests, q.scope = Scope.conservative) →
      ∀ q ∈ (l.foldl (planStep s) acc).analysisRequests,
        q.scope = Scope.conservative := by
    intro l
    induction l with
    | nil => intro acc hacc q hq; exact hacc q hq
    | cons bp rest ih =>
      intro acc hacc q hq
      refine ih (planStep s acc bp) ?_ q hq
      intro q' hq'
      rcases planStep_requests s acc bp q' hq' with h' | h'
      · exact hacc q' h'
      · exact h'
  exact aux bps ⟨[], []⟩ (by intro q hq; exact absurd hq (List.not_mem_nil q)) r h

theorem demandStep_calls_minimal
    (analyze : DependencyAnalysisRequest → DependencyAnalysisResponse)
    (adapter : List String → InterpretResponse)
    (s : ManagerState) (bp : Breakpoint) (r : DependencyAnalysisRequest)
    (h : r ∈ (demandOnBreakpointSet analyze adapter s bp).analysisCalls) :
    r.scope = Scope.minimal := by
  unfold demandOnBreakpointSet at h
  cases ht : targetOf bp with
  | none =>
    rw [ht] at h
    exact absurd h (List.not_mem_nil r)
  | some m =>
    rw [ht] at h
    dsimp only at h
    split_ifs at h
    · exact absurd h (List.not_mem_nil r)
    · rw [List.mem_singleton] at h
      subst h
      rfl
    · rw [List.mem_singleton] at h
      subst h
      rfl

theorem demandChanged_calls_minimal
    (analyze : DependencyAnalysisRequest → DependencyAnalysisResponse)
    (adapter : List String → InterpretResponse)
    (bps : List Breakpoint) (s : ManagerState) (r : DependencyAnalysisRequest)
    (h : r ∈ (demandChanged analyze adapter s bps).analysisCalls) :
    r.scope = Scope.minimal := by
  induction bps generalizing s with
  | nil => exact absurd h (List.not_mem_nil r)
  | cons bp rest ih =>
    unfold demandChanged at h
    dsimp only at h
    rw [List.mem_append] at h
    rcases h with h | h
    · exact demandStep_calls_minimal analyze adapter s bp r h
    · exact ih _ h

/-- C2 counterexample: with the default demand-driven strategy enabled, the
coordination entry point `onBreakpointsChanged` processes a breakpoint by
issuing a dependency-analysis request with scope `'minimal'`, not
`'conservative'` — `DemandDrivenCoordinator.onBreakpointSet` passes
`{ scope: 'minimal' }` explicitly, so a breakpoint-triggered analysis does
default to policy `minimal`. -/
theorem claim_C2_counterexample :
    ((onBreakpointsChanged (fun req => ⟨req.module, [req.module]⟩)
        (fun l => ⟨l, []⟩)
        ⟨[], [], "demand-driven", true⟩
        [Breakpoint.source "/lib/user.ex"]).analysisCalls.map
        (fun req => req.scope) = [Scope.minimal]) ∧
      Scope.minimal ≠ Scope.conservative := by
  constructor
  · decide
  · decide

/-- C2 (amended): the batch planner `planInterpretationScope` attaches scope
`'conservative'` to every breakpoint it resolves, but the default
demand-driven strategy's per-breakpoint handler requests scope `'minimal'`,
and `requestDependencyAnalysis` itself defaults to `'minimal'` when the
caller supplies no scope. -/
theorem claim_C2_scope_policy
    (analyze : DependencyAnalysisRequest → DependencyAnalysisResponse)
    (adapter : List String → InterpretResponse)
    (s : ManagerState) (bps : List Breakpoint)
    (r1 r2 : DependencyAnalysisRequest)
    (patterns : List String) (module : String)
    (h1 : r1 ∈ (planInterpretationScope s bps).analysisRequests)
    (h2 : r2 ∈ (demandChanged analyze adapter s bps).analysisCalls) :
    r1.scope = Scope.conservative ∧ r2.scope = Scope.minimal ∧
    (buildAnalysisRequest patterns module ⟨none, none, none⟩).scope =
      Scope.minimal :=
  ⟨plan_requests_conservative s bps r1 h1,
    demandChanged_calls_minimal analyze adapter bps s r2 h2, rfl⟩

/-- C2 witness: both request kinds produced from one concrete breakpoint. -/
theorem claim_C2_witness :
    (⟨"User", Scope.conservative, false, ["MyApp.*"]⟩ :
        DependencyAnalysisRequest).scope = Scope.conservative ∧
    (⟨"User", Scope.minimal, false, ["MyApp.*"]⟩ :
        DependencyAnalysisRequest).scope = Scope.minimal ∧
    (buildAnalysisRequest ["MyApp.*"] "User" ⟨none, none, none⟩).scope =
      Scope.minimal :=
  claim_C2_scope_policy (fun req => ⟨req.module, [req.module]⟩)
    (fun l => ⟨l, []⟩)
    ⟨[], ["MyApp.*"], "demand-driven", true⟩
    [Breakpoint.source "/lib/user.ex"]
    ⟨"User", Scope.conservative, false, ["MyApp.*"]⟩
    ⟨"User", Scope.minimal, false, ["MyApp.*"]⟩
    ["MyApp.*"] "User" (by decide) (by decide)

/-- Concrete scope-planner graph with the single edge `User → Jason` (a
library-like unit), used by the pattern-filtering scenario. -/
def graphUserJason : DependencyGraph := ⟨[("User", "Jason")]⟩

/-- C7: allow-list filtering keeps only units matching at least one allow
pattern but always retains the target unit itself; with edge `User → Jason`
and allow-list `["MyApp.*"]`, the filtered `minimal(User)` result excludes
`Jason` and includes `User`. -/
theorem claim_C7_pattern_filtering (target u : String)
    (allow units : List String)
    (htu : target ∈ units) (hu : u ∈ applyAllowList target allow units) :
    target ∈ applyAllowList target allow units ∧
    (u ∈ units ∧
      (allow.isEmpty = true ∨ u = target ∨
        ∃ p ∈ allow, globMatchStr p u = true)) ∧
    applyAllowList "User" ["MyApp.*"] (minimalScope graphUserJason "User") =
      ["User"] := by
  refine ⟨?_, ?_, by decide⟩
  · unfold applyAllowList
    by_cases hA : allow.isEmpty = true
    · rw [if_pos hA]
      exact htu
    · rw [if_neg hA, List.mem_filter]
      refine ⟨htu, ?_⟩
      simp
  · unfold applyAllowList at hu
    by_cases hA : allow.isEmpty = true
    · rw [if_pos hA] at hu
      exact ⟨hu, Or.inl hA⟩
    · rw [if_neg hA, List.mem_filter] at hu
      obtain ⟨h1, h2⟩ := hu
      refine ⟨h1, Or.inr ?_⟩
      simp only [Bool.or_eq_true, decide_eq_true_eq, List.any_eq_true] at h2
      exact h2

/-- C7 witness: the target `User` survives filtering by `["MyApp.*"]` even
though it matches no allow pattern. -/
theorem claim_C7_witness :
    "User" ∈ applyAllowList "User" ["MyApp.*"]
      (minimalScope graphUserJason "User") :=
  (claim_C7_pattern_filtering "User" "User" ["MyApp.*"]
    (minimalScope graphUserJason "User") (by decide) (by decide)).1

/-- C10: a source breakpoint yields a module name exactly when the basename
of its file path carries the `.ex` extension (so `.exs` files are skipped);
the name is computed from the basename alone — paths with equal basenames
give equal results, so directories are ignored and fully-namespaced names are
never produced — by dropping `.ex`, splitting on underscores and
capitalizing each segment, e.g. `user_token.ex → UserToken`. -/
theorem claim_C10_module_extraction (path p q : String)
    (hpq : fileNameOf p = fileNameOf q) :
    ((extractModuleFromFile path).isSome =
        endsWithDotEx (fileNameOf path).data) ∧
    extractModuleFromFile p = extractModuleFromFile q ∧
    extractModuleFromFile "/lib/my_app/user_token.ex" = some "UserToken" ∧
    extractModuleFromFile "/apps/other/user_token.ex" = some "UserToken" ∧
    extractModuleFromFile "/lib/my_app/script.exs" = none := by
  refine ⟨?_, ?_, by decide, by decide, by decide⟩
  · unfold extractModuleFromFile moduleFromFileName
    by_cases h0 : fileNameOf path = ""
    · rw [if_pos h0, h0]
      decide
    · rw [if_neg h0]
      by_cases h1 : endsWithDotEx (fileNameOf path).data = true
      · rw [if_pos h1, h1]
        rfl
      · rw [if_neg h1]
        rw [Bool.not_eq_true] at h1
        rw [h1]
        rfl
  · unfold extractModuleFromFile
    rw [hpq]

/-- C10 witness: two breakpoints on files with the same basename in different
directories resolve to the same module name. -/
theorem claim_C10_witness :
    extractModuleFromFile "/lib/app_one/user.ex" =
      extractModuleFromFile "/src/deep/nested/user.ex" :=
  (claim_C10_module_extraction "/x/y.ex" "/lib/app_one/user.ex"
    "/src/deep/nested/user.ex" (by decide)).2.1

theorem demandStep_fields
    (analyze : DependencyAnalysisRequest → DependencyAnalysisResponse)
    (adapter : List String → InterpretResponse)
    (s : ManagerState) (bp : Breakpoint) :
    (demandOnBreakpointSet analyze adapter s bp).state.interpretationPatterns =
        s.interpretationPatterns ∧
    (demandOnBreakpointSet analyze adapter s bp).state.currentStrategy =
        s.currentStrategy ∧
    (demandOnBreakpointSet analyze adapter s bp).state.coordinationEnabled =
        s.coordinationEnabled := by
  unfold demandOnBreakpointSet
  cases targetOf bp with
  | none => exact ⟨rfl, rfl, rfl⟩
  | some m =>
    dsimp only
    split_ifs <;> exact ⟨rfl, rfl, rfl⟩

theorem demandChanged_fields
    (analyze : DependencyAnalysisRequest → DependencyAnalysisResponse)
    (adapter : List String → InterpretResponse)
    (bps : List Breakpoint) (s : ManagerState) :
    (demandChanged analyze adapter s bps).state.interpretationPatterns =
        s.interpretationPatterns ∧
    (demandChanged analyze adapter s bps).state.currentStrategy =
        s.currentStrategy ∧
    (demandChanged analyze adapter s bps).state.coordinationEnabled =
        s.coordinationEnabled := by
  induction bps generalizing s with
  | nil => exact ⟨rfl, rfl, rfl⟩
  | cons bp rest ih =>
    simp only [demandChanged]
    refine ⟨?_, ?_, ?_⟩
    · exact ((ih (demandOnBreakpointSet analyze adapter s bp).state).1).trans
        (demandStep_fields analyze adapter s bp).1
    · exact ((ih (demandOnBreakpointSet analyze adapter s bp).state).2.1).trans
        (demandStep_fields analyze adapter s bp).2.1
    · exact ((ih (demandOnBreakpointSet analyze adapter s bp).state).2.2).trans
        (demandStep_fields analyze adapter s bp).2.2

theorem predictiveChanged_fields
    (analyze : DependencyAnalysisRequest → DependencyAnalysisResponse)
    (adapter : List String → InterpretResponse)
    (s : ManagerState) (bps : List Breakpoint) :
    (predictiveChanged analyze adapter s bps).state.interpretationPatterns =
        s.interpretationPatterns ∧
    (predictiveChanged analyze adapter s bps).state.currentStrategy =
        s.currentStrategy ∧
    (predictiveChanged analyze adapter s bps).state.coordinationEnabled =
        s.coordinationEnabled := by
  unfold predictiveChanged
  split_ifs <;> exact ⟨rfl, rfl, rfl⟩

theorem demandChanged_targets
    (analyze : DependencyAnalysisRequest → DependencyAnalysisResponse)
    (adapter : List String → InterpretResponse)
    (hT : ∀ req : DependencyAnalysisRequest,
      req.module ∈ (analyze req).interpretationScope)
    (hAd : ∀ (l : List String) (m : String), m ∈ l → m ∈ (adapter l).interpreted)
    (bps : List Breakpoint) (s : ManagerState) (bp : Breakpoint) (m : String)
    (hbp : bp ∈ bps) (htm : targetOf bp = some m) :
    m ∈ (demandChanged analyze adapter s bps).state.interpretedModules := by
  induction bps generalizing s with
  | nil => exact absurd hbp (List.not_mem_nil bp)
  | cons bp2 rest ih =>
    rcases List.mem_cons.mp hbp with heq | hmem
    · subst heq
      refine demandChanged_mono analyze adapter rest _ m ?_
      unfold demandOnBreakpointSet
      rw [htm]
      dsimp only
      by_cases hins :
          hasModule (getInterpretationStatus s).interpretedModules m = true
      · rw [if_pos hins]
        exact (hasModule_iff _ _).mp hins
      · rw [if_neg hins]
        have hmem2 : m ∈ (analyze (demandRequest s m)).interpretationScope :=
          hT (demandRequest s m)
        have hpos : 0 < (analyze (demandRequest s m)).interpretationScope.length :=
          List.length_pos.mpr (List.ne_nil_of_mem hmem2)
        rw [if_pos hpos]
        exact (mem_executeInterpretationUpdate _ _ _).mpr
          (Or.inr (hAd _ m hmem2))
    · exact ih (demandOnBreakpointSet analyze adapter s bp2).state hmem

theorem demandChanged_skip
    (analyze : DependencyAnalysisRequest → DependencyAnalysisResponse)
    (adapter : List String → InterpretResponse)
    (bps : List Breakpoint) (s : ManagerState)
    (h : ∀ bp ∈ bps, ∀ m, targetOf bp = some m → m ∈ s.interpretedModules) :
    demandChanged analyze adapter s bps = ⟨s, [], []⟩ := by
  induction bps with
  | nil => rfl
  | cons bp rest ih =>
    have hstep : demandOnBreakpointSet analyze adapter s bp = ⟨s, [], []⟩ := by
      unfold demandOnBreakpointSet
      cases htm : targetOf bp with
      | none => rfl
      | some m =>
        dsimp only
        have hm := h bp (List.mem_cons_self bp rest) m htm
        rw [if_pos ((hasModule_iff
          (getInterpretationStatus s).interpretedModules m).mpr hm)]
    have ih2 : demandChanged analyze adapter s rest = ⟨s, [], []⟩ :=
      ih (fun bp2 hbp2 m htm => h bp2 (List.mem_cons_of_mem bp hbp2) m htm)
    simp only [demandChanged, hstep, ih2, List.nil_append]

theorem planInterpretationScope_congr (s s2 : ManagerState)
    (bps : List Breakpoint)
    (hp : s.interpretationPatterns = s2.interpretationPatterns) :
    planInterpretationScope s bps = planInterpretationScope s2 bps := by
  unfold planInterpretationScope
  have hstep : planStep s = planStep s2 := by
    funext plan bp
    unfold planStep
    cases targetOf bp with
    | none => rfl
    | some m => rw [hp]
  rw [hstep]

theorem predictiveChanged_of_delta_nil
    (analyze : DependencyAnalysisRequest → DependencyAnalysisResponse)
    (adapter : List String → InterpretResponse)
    (s : ManagerState) (bps : List Breakpoint)
    (h : predictiveDelta analyze s bps = []) :
    predictiveChanged analyze adapter s bps =
      ⟨s, [], (planInterpretationScope s bps).analysisRequests⟩ := by
  unfold predictiveChanged
  rw [h]
  exact if_neg (lt_irrefl 0)

theorem predictiveChanged_idempotent
    (analyze : DependencyAnalysisRequest → DependencyAnalysisResponse)
    (adapter : List String → InterpretResponse)
    (hAd : ∀ (l : List String) (m : String), m ∈ l → m ∈ (adapter l).interpreted)
    (s : ManagerState) (bps : List Breakpoint) :
    (predictiveChanged analyze adapter
        (predictiveChanged analyze adapter s bps).state bps).adapterCalls = [] ∧
    (predictiveChanged analyze adapter
        (predictiveChanged analyze adapter s bps).state bps).state =
      (predictiveChanged analyze adapter s bps).state := by
  have hpat := (predictiveChanged_fields analyze adapter s bps).1
  have hplan :
      planInterpretationScope (predictiveChanged analyze adapter s bps).state bps =
        planInterpretationScope s bps :=
    planInterpretationScope_congr _ _ bps hpat
  have hdelta :
      predictiveDelta analyze (predictiveChanged analyze adapter s bps).state bps
        = [] := by
    rw [List.eq_nil_iff_forall_not_mem]
    intro m hm
    unfold predictiveDelta at hm
    rw [hplan, mem_mergeDependencies] at hm
    obtain ⟨⟨a, ha, hma⟩, hni⟩ := hm
    apply hni
    by_cases hms : m ∈ s.interpretedModules
    · exact predictiveChanged_mono analyze adapter s bps m hms
    · have hd : m ∈ predictiveDelta analyze s bps := by
        unfold predictiveDelta
        rw [mem_mergeDependencies]
        exact ⟨⟨a, ha, hma⟩, hms⟩
      have hpos : 0 < (predictiveDelta analyze s bps).length :=
        List.length_pos.mpr (List.ne_nil_of_mem hd)
      unfold predictiveChanged
      rw [if_pos hpos]
      exact (mem_executeInterpretationUpdate _ _ _).mpr
        (Or.inr (hAd _ m hd))
  rw [predictiveChanged_of_delta_nil analyze adapter _ bps hdelta]
  exact ⟨rfl, rfl⟩

/-- C1: invoking the coordination entry point a second time with the same
breakpoint set and an unchanged dependency graph (the same pure analysis
function) issues zero interpretation calls to the Execution Adapter — the
delta against the currently-interpreted set is empty — and leaves the state,
hence the `getStatus` snapshot, unchanged.  Hypotheses: the analysis service
includes the requested target in its returned scope, and the Execution
Adapter reports every requested module as interpreted (the success path). -/
theorem claim_C1_idempotent
    (analyze : DependencyAnalysisRequest → DependencyAnalysisResponse)
    (adapter : List String → InterpretResponse)
    (hT : ∀ req : DependencyAnalysisRequest,
      req.module ∈ (analyze req).interpretationScope)
    (hAd : ∀ (l : List String) (m : String), m ∈ l → m ∈ (adapter l).interpreted)
    (s : ManagerState) (bps : List Breakpoint) :
    (onBreakpointsChanged analyze adapter
        (onBreakpointsChanged analyze adapter s bps).state bps).adapterCalls = [] ∧
    (onBreakpointsChanged analyze adapter
        (onBreakpointsChanged analyze adapter s bps).state bps).state =
      (onBreakpointsChanged analyze adapter s bps).state ∧
    getInterpretationStatus (onBreakpointsChanged analyze adapter
        (onBreakpointsChanged analyze adapter s bps).state bps).state =
      getInterpretationStatus (onBreakpointsChanged analyze adapter s bps).state := by
  by_cases hdis : s.coordinationEnabled = false
  · have h1 : onBreakpointsChanged analyze adapter s bps = ⟨s, [], []⟩ := by
      unfold onBreakpointsChanged
      rw [if_pos hdis]
    have hstate : (onBreakpointsChanged analyze adapter s bps).state = s := by
      rw [h1]
    rw [hstate, h1]
    exact ⟨rfl, rfl, rfl⟩
  · by_cases hpred : s.currentStrategy = "predictive"
    · have h1 : onBreakpointsChanged analyze adapter s bps =
          predictiveChanged analyze adapter s bps := by
        unfold onBreakpointsChanged
        rw [if_neg hdis, if_pos hpred]
      have hfields := predictiveChanged_fields analyze adapter s bps
      have h2 : onBreakpointsChanged analyze adapter
            (predictiveChanged analyze adapter s bps).state bps =
          predictiveChanged analyze adapter
            (predictiveChanged analyze adapter s bps).state bps := by
        unfold onBreakpointsChanged
        rw [hfields.2.2, hfields.2.1, if_neg hdis, if_pos hpred]
      rw [h1, h2]
      obtain ⟨ha, hs⟩ := predictiveChanged_idempotent analyze adapter hAd s bps
      exact ⟨ha, hs, congrArg getInterpretationStatus hs⟩
    · have h1 : onBreakpointsChanged analyze adapter s bps =
          demandChanged analyze adapter s bps := by
        unfold onBreakpointsChanged
        rw [if_neg hdis, if_neg hpred]
      have hfields := demandChanged_fields analyze adapter bps s
      have h2 : onBreakpointsChanged analyze adapter
            (demandChanged analyze adapter s bps).state bps =
          demandChanged analyze adapter
            (demandChanged analyze adapter s bps).state bps := by
        unfold onBreakpointsChanged
        rw [hfields.2.2, hfields.2.1, if_neg hdis, if_neg hpred]
      have hskip : demandChanged analyze adapter
            (demandChanged analyze adapter s bps).state bps =
          ⟨(demandChanged analyze adapter s bps).state, [], []⟩ :=
        demandChanged_skip analyze adapter bps _
          (fun bp hbp m htm =>
            demandChanged_targets analyze adapter hT hAd bps s bp m hbp htm)
      rw [h1, h2, hskip]
      exact ⟨rfl, rfl, rfl⟩

/-- C1 witness: one breakpoint, a scope that contains its target, a fully
successful adapter — the second identical invocation makes no adapter call. -/
theorem claim_C1_witness :
    (onBreakpointsChanged (fun req => ⟨req.module, [req.module, "Order"]⟩)
        (fun l => ⟨l, []⟩)
        (onBreakpointsChanged (fun req => ⟨req.module, [req.module, "Order"]⟩)
          (fun l => ⟨l, []⟩)
          ⟨[], ["MyApp.*"], "demand-driven", true⟩
          [Breakpoint.source "/lib/user.ex"]).state
        [Breakpoint.source "/lib/user.ex"]).adapterCalls = [] :=
  (claim_C1_idempotent (fun req => ⟨req.module, [req.module, "Order"]⟩)
    (fun l => ⟨l, []⟩) (fun _ => List.mem_cons_self _ _)
    (fun _ _ h => h) ⟨[], ["MyApp.*"], "demand-driven", true⟩
    [Breakpoint.source "/lib/user.ex"]).1

end DIM
